import Mathlib

/-!
Verification development for the besett settings library (src/besett.py).

The Python code is shallowly embedded: JSON-style runtime values become the

mutual inductive types `Value` / `VList` / `NestedDict`, Python dictionaries
become insertion-ordered entry lists, and each method of `NestedDict`,
`File` and `Manager` is translated statement by statement.  Python
exceptions are modelled with `Except Err`.

Two points of fidelity deserve attention:

* Python distinguishes plain `dict` objects (as produced by `json.loads`)
  from `NestedDict` instances.  The embedding keeps that distinction as the
  Boolean flag of the `Value.vdict` constructor (`true` = NestedDict,
  `false` = plain dict), because `NestedDict.iter_flat` recurses only into
  `NestedDict` values while `NestedDict.__getitem__` subscripts a plain
  dict with the whole remaining dotted key.

* The Python methods peel one path segment per call with
  `key.split(NestedDict.SEP, 1)`.  The embedding splits the key into all
  its segments up front (`splitSegs`) and recurses over the segment list,
  rebuilding the undivided remainder (`joinSegs`) where the Python code
  hands the raw remainder string to a plain dict.  The theorems
  `NestedDict.getitem_eq_split`, `NestedDict.set_eq_split` and
  `NestedDict.get_eq_split` below prove that this is exactly the
  one-split-per-level behaviour of the source, stated via `splitKey`, the
  direct model of `key.split('.', 1)`.
-/

/-- Python exceptions that the besett code can raise or catch. -/
inductive Err where
  | keyError
  | typeError
  | attributeError
  | valueError
deriving DecidableEq, Repr

mutual

/-- A Python value stored in besett settings trees: JSON scalars, lists and
dictionaries.  The Boolean on `vdict` records whether the object is a
`NestedDict` instance (`true`) or a plain `dict` (`false`); both satisfy
Python `isinstance(x, dict)` but behave differently under subscription,
`get` and `iter_flat`. -/
inductive Value where
  | vnull  : Value
  | vbool  : Bool → Value
  | vint   : Int → Value
  | vstr   : String → Value
  | vlist  : VList → Value
  | vdict  : Bool → NestedDict → Value

/-- The elements of a Python list value. -/
inductive VList where
  | lnil  : VList
  | lcons : Value → VList → VList

/-- The insertion-ordered entries of a Python dictionary (the in-memory
content of a besett `NestedDict`, and equally of a plain `dict`). -/
inductive NestedDict where
  | nil  : NestedDict
  | cons : String → Value → NestedDict → NestedDict

end

/-- Converts a Lean list of values into a `VList` (for readable concrete
statements). -/
def VList.ofList : List Value → VList
  | [] => .lnil
  | v :: vs => .lcons v (VList.ofList vs)

/-- Converts a Lean list of pairs into dictionary entries (for readable
concrete statements). -/
def NestedDict.ofList : List (String × Value) → NestedDict
  | [] => .nil
  | (k, v) :: ps => .cons k v (NestedDict.ofList ps)

/-- Python `d[k]` read on a dict: the binding of the key (keys are unique
in a real Python dict, so the first binding). -/
def alGet : NestedDict → String → Option Value
  | .nil, _ => none
  | .cons k v rest, key => if k = key then some v else alGet rest key

/-- Python `d[k] = v` write on a dict: overwrite in place keeping the
position, or append a fresh key at the end (insertion order). -/
def alSet : NestedDict → String → Value → NestedDict
  | .nil, key, val => .cons key val .nil
  | .cons k v rest, key, val =>
      if k = key then .cons k val rest else .cons k v (alSet rest key val)

/-- Python `k in d` on a dict. -/
def keyMem : NestedDict → String → Bool
  | .nil, _ => false
  | .cons k _ rest, key => k = key || keyMem rest key

/-- Concatenation of entry lists (a specification device, not a Python
operation). -/
def NestedDict.append : NestedDict → NestedDict → NestedDict
  | .nil, e => e
  | .cons k v tl, e => .cons k v (NestedDict.append tl e)

/-- Character-level model of Python `key.split('.', 1)`: the part before
the first dot, and the remainder after it when a dot exists. -/
def splitChars : List Char → List Char × Option (List Char)
  | [] => ([], none)
  | c :: cs =>
      if c = '.' then ([], some cs)
      else
        match splitChars cs with
        | (l, r) => (c :: l, r)

/-- `key.split(NestedDict.SEP, 1)` for `SEP = '.'`: the head segment plus
the optional undivided remainder.  This is the exact splitting the Python
methods perform once per nesting level. -/
def splitKey (s : String) : String × Option String :=
  match splitChars s.data with
  | (l, none) => (⟨l⟩, none)
  | (l, some r) => (⟨l⟩, some ⟨r⟩)

/-- Character-level full split on dots: head segment and all later
segments. -/
def splitSegsCh : List Char → List Char × List (List Char)
  | [] => ([], [])
  | c :: cs =>
      match splitSegsCh cs with
      | (s, ss) => if c = '.' then ([], s :: ss) else (c :: s, ss)

/-- Full split of a key into its head segment and the remaining segments
(iterating `split('.', 1)` to the end). -/
def splitSegs (s : String) : String × List String :=
  match splitSegsCh s.data with
  | (h, ts) => (⟨h⟩, ts.map fun l => (⟨l⟩ : String))

/-- Character-level rejoining of segments with dots. -/
def joinSegsCh : List Char → List (List Char) → List Char
  | s, [] => s
  | s, t :: ts => s ++ '.' :: joinSegsCh t ts

/-- Rejoining segments with dots: the undivided remainder string that the
Python code would be holding at this point of the traversal. -/
def joinSegs : String → List String → String
  | s, [] => s
  | s, t :: ts => s ++ "." ++ joinSegs t ts

/-- `NestedDict.SEP.join([k, dk])`. -/
def joinKey (a b : String) : String := a ++ "." ++ b

/-- The body of `NestedDict.__getitem__` (besett.py lines 58-69), recursing
over the pre-split segments.  A single segment is a direct lookup; for more
segments the head is looked up and the value is subscripted with the
remainder: a `NestedDict` value recurses, a plain dict looks the undivided
remainder up literally (Python `dict.__getitem__`), and any other value
raises `TypeError` when subscripted with a string.
`NestedDict.getitem_eq_split` proves this equal to the one-split-per-level
source code. -/
def NestedDict.getitemGo : NestedDict → String → List String → Except Err Value
  | d, k1, [] =>
      match alGet d k1 with
      | none => .error .keyError
      | some v => .ok v
  | d, k1, k2 :: ks =>
      match alGet d k1 with
      | none => .error .keyError
      | some (.vdict true sub) => NestedDict.getitemGo sub k2 ks
      | some (.vdict false sub) =>
          match alGet sub (joinSegs k2 ks) with
          | some w => .ok w
          | none => .error .keyError
      | some _ => .error .typeError

/-- `NestedDict.__getitem__` (besett.py lines 58-69). -/
def NestedDict.getitem (d : NestedDict) (key : String) : Except Err Value :=
  NestedDict.getitemGo d (splitSegs key).1 (splitSegs key).2

/-- The body of `NestedDict.__setitem__` (besett.py lines 71-90).
Multi-segment keys auto-create a fresh `NestedDict` for a missing head,
recurse through a `NestedDict` value, write the undivided remainder
literally into a plain dict, and raise `KeyError` when the head holds a
non-dict value (the `cannot change the nesting structure` case).  The
source mutates in place; an exception can only arise at a pre-existing
non-dict value, before any mutation at or below that level, so the
all-or-nothing `Except` result is faithful.  `NestedDict.set_eq_split`
proves this equal to the one-split-per-level source code. -/
def NestedDict.setGo : NestedDict → String → List String → Value → Except Err NestedDict
  | d, k1, [], val => .ok (alSet d k1 val)
  | d, k1, k2 :: ks, val =>
      match alGet d k1 with
      | none =>
          match NestedDict.setGo .nil k2 ks val with
          | .ok sub => .ok (alSet d k1 (.vdict true sub))
          | .error e => .error e
      | some (.vdict true sub) =>
          match NestedDict.setGo sub k2 ks val with
          | .ok sub' => .ok (alSet d k1 (.vdict true sub'))
          | .error e => .error e
      | some (.vdict false sub) =>
          .ok (alSet d k1 (.vdict false (alSet sub (joinSegs k2 ks) val)))
      | some _ => .error .keyError

/-- `NestedDict.__setitem__` (besett.py lines 71-90). -/
def NestedDict.set (d : NestedDict) (key : String) (val : Value) :
    Except Err NestedDict :=
  NestedDict.setGo d (splitSegs key).1 (splitSegs key).2 val

/-- The body of `NestedDict.get` (besett.py lines 92-105).  The `try`
around the nested call catches only the `KeyError` raised when the head
segment is absent.  The recursive call does not forward the caller
`default` (only `**kwargs` is forwarded, and `default` is a positional
parameter), so the nested default is Python `None`.  A plain-dict value
answers `dict.get(remainder)`, again with default `None`; a scalar or
list has no `get` attribute, raising `AttributeError`.
`NestedDict.get_eq_split` proves this equal to the one-split-per-level
source code. -/
def NestedDict.getGo : NestedDict → String → List String → Value → Except Err Value
  | d, k1, [], default => .ok ((alGet d k1).getD default)
  | d, k1, k2 :: ks, default =>
      match alGet d k1 with
      | none => .ok default
      | some (.vdict true sub) => NestedDict.getGo sub k2 ks .vnull
      | some (.vdict false sub) => .ok ((alGet sub (joinSegs k2 ks)).getD .vnull)
      | some _ => .error .attributeError

/-- `NestedDict.get` (besett.py lines 92-105). -/
def NestedDict.get (d : NestedDict) (key : String) (default : Value) :
    Except Err Value :=
  NestedDict.getGo d (splitSegs key).1 (splitSegs key).2 default

mutual

/-- `NestedDict.iter_flat` (besett.py lines 119-127): depth-first
flattening that recurses only into values that are `NestedDict`
instances; every other value (scalars, lists, and plain dicts) is
yielded as a leaf with its key so far. -/
def NestedDict.iter_flat : NestedDict → List (String × Value)
  | .nil => []
  | .cons k v rest => iterFlatEntry k v ++ NestedDict.iter_flat rest

/-- One key/value pair of `iter_flat`: the `isinstance(v, NestedDict)`
test of the source. -/
def iterFlatEntry : String → Value → List (String × Value)
  | k, .vdict true sub =>
      (NestedDict.iter_flat sub).map (fun p => (joinKey k p.1, p.2))
  | k, v => [(k, v)]

end

/-- The loop of `NestedDict.update`: `self[k] = v` for each flattened
pair; the first raised exception propagates. -/
def NestedDict.replay (d : NestedDict) : List (String × Value) → Except Err NestedDict
  | [] => .ok d
  | (k, v) :: ps =>
      match NestedDict.set d k v with
      | .ok d' => NestedDict.replay d' ps
      | .error e => .error e

/-- `NestedDict.update` (besett.py lines 114-117): `incoming` holds the
top-level entries of `type(self)(*args)` (the dict constructor copies only
the top level, leaving nested values untouched); every flattened pair of
`incoming` is then set individually. -/
def NestedDict.update (d : NestedDict) (incoming : NestedDict) :
    Except Err NestedDict :=
  NestedDict.replay d (NestedDict.iter_flat incoming)

mutual

/-- Python `==` between two values (as used by the spec notion of
deep-equality): scalars compare by value with the usual bool/int
identification, lists compare elementwise, and dictionaries compare as
unordered key/value mappings regardless of being plain dicts or
`NestedDict` instances. -/
def valueEqB : Value → Value → Bool
  | .vnull, .vnull => true
  | .vbool a, .vbool b => a = b
  | .vbool a, .vint n => (if a then (1 : Int) else 0) = n
  | .vint n, .vbool a => n = (if a then (1 : Int) else 0)
  | .vint a, .vint b => a = b
  | .vstr a, .vstr b => a = b
  | .vlist a, .vlist b => vlistEqB a b
  | .vdict _ a, .vdict _ b => entriesLen a = entriesLen b && entriesSubB a b
  | _, _ => false

/-- Python `==` between two lists: elementwise. -/
def vlistEqB : VList → VList → Bool
  | .lnil, .lnil => true
  | .lcons a as, .lcons b bs => valueEqB a b && vlistEqB as bs
  | _, _ => false

/-- Every key of the first dict is present in the second with an equal
value (with equal lengths this is Python dict equality). -/
def entriesSubB : NestedDict → NestedDict → Bool
  | .nil, _ => true
  | .cons k v rest, b =>
      (match alGet b k with
       | some w => valueEqB v w
       | none => false) && entriesSubB rest b

/-- Python `len` of a dict. -/
def entriesLen : NestedDict → Nat
  | .nil => 0
  | .cons _ _ rest => entriesLen rest + 1

end

/-- `besett.File` (besett.py lines 135-275): one settings source, holding
an optional disk path and a `NestedDict` of settings. -/
structure File where
  path : Option String
  settings : NestedDict

/-- The file system visible to `os.path.exists` and `File.read`: a mapping
from path to the already-parsed JSON document (a plain top-level object
whose nested objects are plain dicts, exactly what `json.loads` yields). -/
abbrev Disk := List (String × NestedDict)

/-- `os.path.exists` plus reading and `json.loads`: the parsed content of
an existing path. -/
def diskGet : Disk → String → Option NestedDict
  | [], _ => none
  | (p, c) :: rest, q => if p = q then some c else diskGet rest q

/-- `File.__getitem__` (besett.py lines 160-163). -/
def File.getitem (f : File) (key : String) : Except Err Value :=
  NestedDict.getitem f.settings key

/-- `File.get` (besett.py lines 188-204): `try: return self[key] except
KeyError: return default` — only `KeyError` is converted to the default;
any other exception (for example the `TypeError` raised by subscripting a
scalar) propagates. -/
def File.get (f : File) (key : String) (default : Value) : Except Err Value :=
  match File.getitem f key with
  | .ok v => .ok v
  | .error .keyError => .ok default
  | .error e => .error e

/-- `File.set` / `File.__setitem__` (besett.py lines 165-168, 206-215). -/
def File.set (f : File) (key : String) (val : Value) : Except Err File :=
  match NestedDict.set f.settings key val with
  | .ok s => .ok { f with settings := s }
  | .error e => .error e

/-- `File.all` (besett.py lines 182-186): a deep copy of the settings; in
the pure embedding the copy is the tree itself, wrapped as the
`NestedDict` object it is. -/
def File.all (f : File) : Value := .vdict true f.settings

/-- `File.read` (besett.py lines 229-249): when the argument path exists
the path is recorded and the parsed content is deep-merged (`update`,
via `_parse`) into the current settings; otherwise the path is set to
`None` and the settings are untouched. -/
def File.read (disk : Disk) (f : File) (fpath : Option String) : Except Err File :=
  match fpath with
  | some p =>
      match diskGet disk p with
      | some content =>
          match NestedDict.update f.settings content with
          | .ok s => .ok { path := some p, settings := s }
          | .error e => .error e
      | none => .ok { f with path := none }
  | none => .ok { f with path := none }

/-- `File.reload` (besett.py lines 223-227): clear the settings
(`self._settings.clear()`), then `self.read(self.path)`. -/
def File.reload (disk : Disk) (f : File) : Except Err File :=
  File.read disk { f with settings := .nil } f.path

/-- `File.__init__` (besett.py lines 146-158): record the path, start with
empty settings, and read the path at once when `autoload` is set and a
path was given. -/
def File.init (disk : Disk) (fpath : Option String) (autoload : Bool) :
    Except Err File :=
  let f : File := { path := fpath, settings := .nil }
  if autoload ∧ fpath.isSome then File.read disk f fpath else .ok f

/-- `File.deepen` (besett.py lines 267-275): move the whole settings tree
under a single new top-level key (the key is written with nested-key
semantics, as `settings[toplevel] = self._settings` runs through
`NestedDict.__setitem__` on an empty dict). -/
def File.deepen (f : File) (toplevel : String) : Except Err File :=
  match NestedDict.set .nil toplevel (.vdict true f.settings) with
  | .ok s => .ok { f with settings := s }
  | .error e => .error e

/-- `besett.CombineMode` (besett.py lines 31-39). -/
inductive CombineMode where
  | OVERRIDE
  | MERGE
deriving DecidableEq, Repr

/-- One entry of `Manager._file_groups`: the runtime tier is initialised
with a bare `File`, the other tiers with lists of files, and
`Manager.reset` later replaces every entry (runtime included) by an empty
list — so an entry is either a `File` or a list of files, exactly the
two shapes `iter_files` discriminates with `isinstance(files, File)`. -/
inductive Slot where
  | file : File → Slot
  | files : List File → Slot

/-- The files yielded by `iter_files` from one group entry. -/
def Slot.toList : Slot → List File
  | .file f => [f]
  | .files l => l

/-- `list.append` on a group entry; a bare `File` has no `append`
attribute (this branch is unreachable from the public API because
`add_source` refuses the runtime tier). -/
def Slot.append (s : Slot) (f : File) : Except Err Slot :=
  match s with
  | .files l => .ok (.files (l ++ [f]))
  | .file _ => .error .attributeError

/-- `besett.Manager` state (besett.py lines 278-317): the four fixed
groups in priority order, the per-key mode table, and the three default
modes.  The mode table is keyed by `Option String` because `_getex` looks
the mode up with `key`, which may be Python `None`. -/
structure Manager where
  autoload : Bool
  gdefault : Slot
  gplugin : Slot
  guser : Slot
  gruntime : Slot
  mode_table : List (Option String × CombineMode)
  default_dict_mode : CombineMode
  default_list_mode : CombineMode
  default_mode : CombineMode

/-- `Manager.__init__` (besett.py lines 295-316). -/
def Manager.init : Manager :=
  { autoload := true
    gdefault := .files []
    gplugin := .files []
    guser := .files []
    gruntime := .file { path := none, settings := .nil }
    mode_table := []
    default_dict_mode := .MERGE
    default_list_mode := .OVERRIDE
    default_mode := .OVERRIDE }

/-- The ordered `(group name, entry)` pairs of `Manager._file_groups`. -/
def Manager.slotList (m : Manager) : List (String × Slot) :=
  [("default", m.gdefault), ("plugin", m.gplugin),
   ("user", m.guser), ("runtime", m.gruntime)]

/-- The `groupkey in (None, fgroup)` filter of `iter_files`. -/
def includeGroup (groupkey : Option String) (g : String) : Bool :=
  groupkey = none || groupkey = some g

/-- `Manager.iter_files` (besett.py lines 533-555): all files of the
matching groups, lowest priority first (group order reversed when
`reverse` is set; files inside a group always keep list order). -/
def Manager.iter_files (m : Manager) (groupkey : Option String) (rev : Bool) :
    List File :=
  ((if rev then (Manager.slotList m).reverse else Manager.slotList m).map
    (fun gs => if includeGroup groupkey gs.1 then Slot.toList gs.2 else [])).flatten

/-- The collection loop of `Manager._getex` (besett.py lines 362-368):
`f[key]` for each file, skipping files that raise `KeyError`; any other
exception (such as `TypeError` from subscripting a scalar) propagates. -/
def collectSettings : List File → String → Except Err (List Value)
  | [], _ => .ok []
  | f :: fs, key =>
      match File.getitem f key with
      | .ok v =>
          match collectSettings fs key with
          | .ok vs => .ok (v :: vs)
          | .error e => .error e
      | .error .keyError => collectSettings fs key
      | .error e => .error e

/-- `Manager.mode` (besett.py lines 480-489): the explicit per-key entry
if present, else the supplied default, else the scalar default mode. -/
def Manager.mode (m : Manager) (key : Option String) (default : Option CombineMode) :
    CombineMode :=
  ((m.mode_table.lookup key).getD (default.getD m.default_mode))

/-- Python `isinstance(v, dict)` — true for plain dicts and NestedDicts. -/
def Value.isDict : Value → Bool
  | .vdict _ _ => true
  | _ => false

/-- Python `isinstance(v, list)`. -/
def Value.isList : Value → Bool
  | .vlist _ => true
  | _ => false

/-- The top-level entries seen by `NestedDict(d)` when `d` is a dict
value (the constructor copies only the top level). -/
def Value.dictPairs : Value → NestedDict
  | .vdict _ ps => ps
  | _ => .nil

/-- The all-dict `MERGE` branch of `_getex` (besett.py lines 391-395):
`to_return = NestedDict()` then `to_return.update(d)` for each collected
dict, in ascending priority order. -/
def mergeDicts : NestedDict → List Value → Except Err NestedDict
  | acc, [] => .ok acc
  | acc, d :: ds =>
      match NestedDict.update acc (Value.dictPairs d) with
      | .ok acc' => mergeDicts acc' ds
      | .error e => .error e

/-- `list.extend` viewed functionally. -/
def vlistAppend : VList → VList → VList
  | .lnil, b => b
  | .lcons v tl, b => .lcons v (vlistAppend tl b)

/-- The any-list `MERGE` branch of `_getex` (besett.py lines 396-405):
extend the result with list values, append anything else. -/
def mergeLists : List Value → VList
  | [] => .lnil
  | .vlist l :: rest => vlistAppend l (mergeLists rest)
  | v :: rest => .lcons v (mergeLists rest)

/-- The mode-selection and combination tail of `Manager._getex`
(besett.py lines 374-410), applied to the non-empty collected list
`a :: rest`. -/
def combineSettings (m : Manager) (key : Option String) (a : Value)
    (rest : List Value) : Except Err Value :=
  let alls := a :: rest
  let all_dicts := alls.all Value.isDict
  let any_lists := alls.any Value.isList
  let md :=
    if all_dicts then Manager.mode m key (some m.default_dict_mode)
    else if any_lists then Manager.mode m key (some m.default_list_mode)
    else Manager.mode m key none
  match md with
  | .OVERRIDE => .ok (List.getLastD rest a)
  | .MERGE =>
      if all_dicts then
        match mergeDicts .nil alls with
        | .ok t => .ok (.vdict true t)
        | .error e => .error e
      else if any_lists then .ok (.vlist (mergeLists alls))
      else .ok (.vlist (VList.ofList alls))

/-- `Manager._getex` restricted to an already-selected file list: collect
the value (or `f.all()` when the key is `None`) from every file, raise
`KeyError` when nothing was collected, then combine. -/
def Manager.getexFiles (m : Manager) (key : Option String) (files : List File) :
    Except Err Value :=
  match (match key with
         | none => .ok (files.map File.all)
         | some k => collectSettings files k : Except Err (List Value)) with
  | .error e => .error e
  | .ok [] => .error .keyError
  | .ok (a :: rest) => combineSettings m key a rest

/-- `Manager._getex` (besett.py lines 318-410): validate the group filter
(`KeyError` when the name is not one of the four fixed group keys),
select the files, collect and combine. -/
def Manager.getex (m : Manager) (key : Option String) (groupkey : Option String) :
    Except Err Value :=
  match groupkey with
  | some g =>
      if g = "default" ∨ g = "plugin" ∨ g = "user" ∨ g = "runtime" then
        Manager.getexFiles m key (Manager.iter_files m (some g) false)
      else .error .keyError
  | none => Manager.getexFiles m key (Manager.iter_files m none false)

/-- `Manager.get` (besett.py lines 569-592): `_getex` with `KeyError`
converted to the default; any other exception propagates. -/
def Manager.get (m : Manager) (key : Option String) (default : Value)
    (groupkey : Option String) : Except Err Value :=
  match Manager.getex m key groupkey with
  | .ok v => .ok v
  | .error .keyError => .ok default
  | .error e => .error e

/-- `Manager.set` / `Manager.__setitem__` (besett.py lines 415-430,
628-643): `self._file_groups['runtime'].set(key, value)`.  When the
runtime entry is the usual bare `File` this writes into it; when it is a
list (the state `Manager.reset` leaves behind) Python raises
`AttributeError`, since lists have no `set` method. -/
def Manager.set (m : Manager) (key : String) (val : Value) : Except Err Manager :=
  match m.gruntime with
  | .file f =>
      match File.set f key val with
      | .ok f' => .ok { m with gruntime := .file f' }
      | .error e => .error e
  | .files _ => .error .attributeError

/-- `Manager.reset` (besett.py lines 557-561): every group entry, the
runtime one included, is replaced by an empty list. -/
def Manager.reset (m : Manager) : Manager :=
  { m with gdefault := .files [], gplugin := .files [],
           guser := .files [], gruntime := .files [] }

/-- `f.reload()` mapped over the files of one list, stopping at the first
exception. -/
def reloadFiles (disk : Disk) : List File → Except Err (List File)
  | [] => .ok []
  | f :: fs =>
      match File.reload disk f with
      | .ok f' =>
          match reloadFiles disk fs with
          | .ok fs' => .ok (f' :: fs')
          | .error e => .error e
      | .error e => .error e

/-- Reloading every file of one group entry. -/
def Slot.reload (disk : Disk) : Slot → Except Err Slot
  | .file f =>
      match File.reload disk f with
      | .ok f' => .ok (.file f')
      | .error e => .error e
  | .files l =>
      match reloadFiles disk l with
      | .ok l' => .ok (.files l')
      | .error e => .error e

/-- `Manager.reload` (besett.py lines 563-567): `f.reload()` for every
file yielded by `iter_files()` — the runtime entry is *not* excluded, so
the runtime `File` is cleared and then reads its `None` path, which
restores nothing. -/
def Manager.reload (m : Manager) (disk : Disk) : Except Err Manager :=
  match Slot.reload disk m.gdefault with
  | .error e => .error e
  | .ok d' =>
      match Slot.reload disk m.gplugin with
      | .error e => .error e
      | .ok p' =>
          match Slot.reload disk m.guser with
          | .error e => .error e
          | .ok u' =>
              match Slot.reload disk m.gruntime with
              | .error e => .error e
              | .ok r' =>
                  .ok { m with gdefault := d', gplugin := p',
                               guser := u', gruntime := r' }

/-- Python `str.lower()` (ASCII suffices for the group names in use). -/
def strLower (s : String) : String := ⟨s.data.map Char.toLower⟩

/-- Replaces the named group entry (used for the `append` in
`add_source`; the name there is always one of the four fixed keys). -/
def Manager.withSlot (m : Manager) (g : String) (s : Slot) : Manager :=
  if g = "default" then { m with gdefault := s }
  else if g = "plugin" then { m with gplugin := s }
  else if g = "user" then { m with guser := s }
  else if g = "runtime" then { m with gruntime := s }
  else m

/-- The named group entry of `_file_groups`. -/
def Manager.slotOf (m : Manager) (g : String) : Option Slot :=
  if g = "default" then some m.gdefault
  else if g = "plugin" then some m.gplugin
  else if g = "user" then some m.guser
  else if g = "runtime" then some m.gruntime
  else none

/-- `Manager.add_source` (besett.py lines 500-531): a groupkey lowering to
`runtime` returns `None` at once with no state change; then, when the
path exists and the lowered groupkey is one of the four group names, a
`File` is constructed (auto-loading per the manager flag), optionally
deepened under `toplevel`, appended to the group list, and returned;
otherwise `ValueError` (invalid file source) is raised. -/
def Manager.add_source (m : Manager) (disk : Disk) (fpath : String)
    (groupkey : String) (toplevel : Option String) :
    Except Err (Option File × Manager) :=
  let g := strLower groupkey
  if g = "runtime" then .ok (none, m)
  else if (diskGet disk fpath).isSome ∧
      (g = "default" ∨ g = "plugin" ∨ g = "user" ∨ g = "runtime") then
    match File.init disk (some fpath) m.autoload with
    | .error e => .error e
    | .ok f0 =>
        match (match toplevel with
               | none => .ok f0
               | some t => File.deepen f0 t : Except Err File) with
        | .error e => .error e
        | .ok f =>
            match ((Manager.slotOf m g).getD (.files [])).append f with
            | .ok s' => .ok (some f, Manager.withSlot m g s')
            | .error e => .error e
  else .error .valueError

/-- No separator occurs among these characters. -/
def noDotChars : List Char → Bool
  | [] => true
  | c :: cs => !(c = '.') && noDotChars cs

/-- The key contains no separator, so `split('.', 1)` leaves it whole. -/
def noDot (s : String) : Bool := noDotChars s.data

mutual

/-- A size measure on values, for strong induction. -/
def vSize : Value → Nat
  | .vdict _ sub => ndSize sub + 1
  | _ => 1

/-- A size measure on entry lists, for strong induction. -/
def ndSize : NestedDict → Nat
  | .nil => 1
  | .cons _ v rest => vSize v + ndSize rest + 1

end

mutual

/-- Well-formedness of a tree for the flatten round-trip: keys are unique
at each level and contain no separator, and every `NestedDict`-typed
subtree is non-empty.  (An empty subtree produces no flattened pairs and
a separator inside a key changes how `set` re-splits it, so both break
the round-trip — see the C9 counterexample.) -/
def wfND : NestedDict → Bool
  | .nil => true
  | .cons k v rest => noDot k && !keyMem rest k && wfVal v && wfND rest

/-- Well-formedness of one stored value: only `NestedDict`-typed subtrees
are constrained (anything else is an opaque leaf for `iter_flat`). -/
def wfVal : Value → Bool
  | .vdict true .nil => false
  | .vdict true sub => wfND sub
  | _ => true

end

/-- No key of `t` is present in `D`. -/
def keysDisjoint (D : NestedDict) : NestedDict → Bool
  | .nil => true
  | .cons k _ rest => !keyMem D k && keysDisjoint D rest

/-- State-passing translation of `f[key]` inside `_getex`: reading the
file returns the value and the file object as the statement leaves it. -/
def File.getitemSt (f : File) (key : String) : Except Err Value × File :=
  (NestedDict.getitem f.settings key, f)

/-- State-passing translation of `f.all()` inside `_getex`: the deep copy
is returned and the file object is left as the statement leaves it. -/
def File.allSt (f : File) : Value × File :=
  (.vdict true f.settings, f)

/-- State-passing translation of the collection loop of `_getex`: each
file is accessed through `File.getitemSt` and handed back, so the list of
files after the loop is explicit in the result. -/
def collectSettingsSt : List File → String → Except Err (List Value) × List File
  | [], _ => (.ok [], [])
  | f :: fs, key =>
      match File.getitemSt f key with
      | (r, f') =>
        match collectSettingsSt fs key with
        | (rest, fs') =>
          ((match r with
            | .ok v =>
                (match rest with
                 | .ok vs => .ok (v :: vs)
                 | .error e => .error e)
            | .error .keyError => rest
            | .error e => .error e), f' :: fs')

/-- State-passing translation of `[f.all() for f in files]`. -/
def filesAllSt : List File → List Value × List File
  | [] => ([], [])
  | f :: fs =>
      match File.allSt f with
      | (v, f') =>
        match filesAllSt fs with
        | (vs, fs') => (v :: vs, f' :: fs')

/-- State-passing collection over a file list, for both the `key is None`
and the keyed branch of `_getex`. -/
def filesScanSt (fs : List File) (key : Option String) :
    Except Err (List Value) × List File :=
  match key with
  | none =>
      match filesAllSt fs with
      | (vs, fs') => (.ok vs, fs')
  | some k => collectSettingsSt fs k

/-- The pure counterpart of `filesScanSt` (exactly the collection step of
`Manager.getexFiles`). -/
def filesScanPure (fs : List File) (key : Option String) :
    Except Err (List Value) :=
  match key with
  | none => .ok (fs.map File.all)
  | some k => collectSettings fs k

/-- State-passing scan of one group entry of `_file_groups`; entries of
groups excluded by the filter are not touched at all. -/
def Slot.scanSt (s : Slot) (key : Option String) (included : Bool) :
    Except Err (List Value) × Slot :=
  if included then
    match s with
    | .file f =>
        match filesScanSt [f] key with
        | (r, fs') => (r, match fs' with
                          | [f'] => .file f'
                          | _ => .file f)
    | .files l =>
        match filesScanSt l key with
        | (r, l') => (r, .files l')
  else (.ok [], s)

/-- Sequencing of two collection results: the values of the first scan
followed by the values of the second, with the first raised exception
propagating. -/
def seqCollect : Except Err (List Value) → Except Err (List Value) →
    Except Err (List Value)
  | .ok a, .ok b => .ok (a ++ b)
  | .error e, _ => .error e
  | .ok _, .error e => .error e

/-- State-passing translation of the body of `Manager._getex` after group
validation: scan the four group entries in priority order, rebuild the
manager from the returned entries, and combine the collected values. -/
def Manager.getexBodySt (m : Manager) (key : Option String)
    (gk : Option String) : Except Err Value × Manager :=
  match Slot.scanSt m.gdefault key (includeGroup gk "default") with
  | (c1, s1) =>
    match Slot.scanSt m.gplugin key (includeGroup gk "plugin") with
    | (c2, s2) =>
      match Slot.scanSt m.guser key (includeGroup gk "user") with
      | (c3, s3) =>
        match Slot.scanSt m.gruntime key (includeGroup gk "runtime") with
        | (c4, s4) =>
          let m' : Manager :=
            { m with gdefault := s1, gplugin := s2, guser := s3, gruntime := s4 }
          ((match seqCollect c1 (seqCollect c2 (seqCollect c3 c4)) with
            | .error e => .error e
            | .ok [] => .error .keyError
            | .ok (a :: rest) => combineSettings m' key a rest), m')

/-- State-passing translation of `Manager._getex`. -/
def Manager.getexSt (m : Manager) (key : Option String)
    (groupkey : Option String) : Except Err Value × Manager :=
  match groupkey with
  | some g =>
      if g = "default" ∨ g = "plugin" ∨ g = "user" ∨ g = "runtime" then
        Manager.getexBodySt m key (some g)
      else (.error .keyError, m)
  | none => Manager.getexBodySt m key none

/-- State-passing translation of `Manager.get`. -/
def Manager.getSt (m : Manager) (key : Option String) (default : Value)
    (groupkey : Option String) : Except Err Value × Manager :=
  match Manager.getexSt m key groupkey with
  | (.ok v, m') => (.ok v, m')
  | (.error .keyError, m') => (.ok default, m')
  | (.error e, m') => (.error e, m')

/-- The manager obtained from a fresh `Manager` after `set('r', 1)`: the
runtime entry holds the pair, nothing else changed. -/
def c1M1 : Manager :=
  { Manager.init with
      gruntime := .file { path := none, settings := .cons "r" (.vint 1) .nil } }

/-- The manager state after reloading `c1M1` against an empty disk. -/
def c1M2 : Manager :=
  { Manager.init with gruntime := .file { path := none, settings := .nil } }

/-- A source whose tree maps the segment `x` to the scalar `5`. -/
def c4File : File := { path := none, settings := .cons "x" (.vint 5) .nil }

/-- A manager with one user source holding the scalar `5` at `x`. -/
def c4Manager : Manager :=
  { Manager.init with
      guser := .files [{ path := some "u.json",
                         settings := .cons "x" (.vint 5) .nil }] }

/-- Values whose subscription by a string raises `TypeError` in Python
(everything that is not a dict: scalars and lists). -/
def nonSubscriptable : Value → Bool
  | .vdict _ _ => false
  | _ => true

/-- Disk for the C7 scenario: a default file with the parsed JSON
document holding a at 1 under m, and a user file holding b at 2 under
m (nested JSON objects are plain dicts). -/
def c7Disk : Disk :=
  [("d.json", .cons "m" (.vdict false (.cons "a" (.vint 1) .nil)) .nil),
   ("u.json", .cons "m" (.vdict false (.cons "b" (.vint 2) .nil)) .nil)]

/-- The C7 manager: fresh manager plus the default and user sources. -/
def c7ManagerE : Except Err Manager :=
  match Manager.add_source Manager.init c7Disk "d.json" "default" none with
  | .ok (_, m1) =>
      (match Manager.add_source m1 c7Disk "u.json" "user" none with
       | .ok (_, m2) => .ok m2
       | .error e => .error e)
  | .error e => .error e

/-- Disk for the C8 chart scenario, with the two JSON documents of the
claim (nested objects are plain dicts, as `json.loads` produces). -/
def chartDisk : Disk :=
  [("chart-default.json",
    .cons "dpi" (.vint 150)
      (.cons "dimensions"
        (.vdict false (.cons "width" (.vint 640)
          (.cons "height" (.vint 480) .nil))) .nil)),
   ("chart-user.json",
    .cons "dpi" (.vint 300)
      (.cons "dimensions"
        (.vdict false (.cons "width" (.vint 1920)
          (.cons "height" (.vint 1080) .nil)))
        (.cons "colors"
          (.vlist (.lcons (.vstr "red") (.lcons (.vstr "green")
            (.lcons (.vstr "blue") .lnil)))) .nil)))]

/-- The C8 manager: fresh manager plus the chart default and user
sources. -/
def chartManagerE : Except Err Manager :=
  match Manager.add_source Manager.init chartDisk "chart-default.json" "default" none with
  | .ok (_, m1) =>
      (match Manager.add_source m1 chartDisk "chart-user.json" "user" none with
       | .ok (_, m2) => .ok m2
       | .error e => .error e)
  | .error e => .error e

theorem splitSegsCh_eq (cs : List Char) :
    splitSegsCh cs =
      match splitChars cs with
      | (l, none) => (l, [])
      | (l, some r) => (l, (splitSegsCh r).1 :: (splitSegsCh r).2) := by
  induction cs with
  | nil => rfl
  | cons c cs ih =>
    simp only [splitSegsCh, splitChars]
    by_cases hc : c = '.'
    · simp [hc]
    · rcases h : splitChars cs with ⟨l, r⟩
      rw [ih, h]
      cases r with
      | none => simp [hc]
      | some rr => simp [hc]

theorem data_append (a b : String) : (a ++ b).data = a.data ++ b.data := rfl

theorem dot_data : ("." : String).data = ['.'] := rfl

theorem joinKey_data (a b : String) :
    (joinKey a b).data = a.data ++ '.' :: b.data := by
  show (a ++ "." ++ b).data = a.data ++ '.' :: b.data
  rw [data_append, data_append, List.append_assoc, dot_data]
  rfl

theorem splitSegs_of_none {s k1 : String} (h : splitKey s = (k1, none)) :
    splitSegs s = (k1, []) := by
  unfold splitKey at h
  unfold splitSegs
  rw [splitSegsCh_eq]
  rcases hsp : splitChars s.data with ⟨l, r⟩
  rw [hsp] at h
  cases r with
  | none =>
    simp only [Prod.mk.injEq] at h
    rw [← h.1]
    simp
  | some rr => simp at h

theorem splitSegs_of_some {s k1 k2 : String} (h : splitKey s = (k1, some k2)) :
    splitSegs s = (k1, (splitSegs k2).1 :: (splitSegs k2).2) := by
  unfold splitKey at h
  unfold splitSegs
  rw [splitSegsCh_eq]
  rcases hsp : splitChars s.data with ⟨l, r⟩
  rw [hsp] at h
  cases r with
  | none => simp at h
  | some rr =>
    simp only [Prod.mk.injEq, Option.some.injEq] at h
    obtain ⟨h1, h2⟩ := h
    subst h2
    rw [← h1]
    show _ = ((⟨l⟩ : String), _)
    rcases hseg : splitSegsCh rr with ⟨h', ts'⟩
    simp [hseg]

theorem joinSegsCh_cons (c : Char) (s : List Char) (ts : List (List Char)) :
    joinSegsCh (c :: s) ts = c :: joinSegsCh s ts := by
  cases ts <;> simp [joinSegsCh]

theorem joinSegsCh_splitSegsCh (cs : List Char) :
    joinSegsCh (splitSegsCh cs).1 (splitSegsCh cs).2 = cs := by
  induction cs with
  | nil => rfl
  | cons c cs ih =>
    simp only [splitSegsCh]
    rcases h : splitSegsCh cs with ⟨s, ss⟩
    rw [h] at ih
    by_cases hc : c = '.'
    · simp only [hc, if_pos rfl]
      simpa [joinSegsCh] using ih
    · simp only [if_neg hc]
      rw [joinSegsCh_cons]
      simpa using ih

theorem joinSegs_data (h : String) (ts : List String) :
    (joinSegs h ts).data = joinSegsCh h.data (ts.map String.data) := by
  induction ts generalizing h with
  | nil => rfl
  | cons t ts ih =>
    show (h ++ "." ++ joinSegs t ts).data = _
    rw [data_append, data_append, ih, List.append_assoc, dot_data]
    rfl

theorem map_data_mk (ts : List (List Char)) :
    (ts.map fun l => (⟨l⟩ : String)).map String.data = ts := by
  induction ts with
  | nil => rfl
  | cons t ts ih => simpa using ih

theorem joinSegs_splitSegs (s : String) :
    joinSegs (splitSegs s).1 (splitSegs s).2 = s := by
  apply String.ext
  unfold splitSegs
  rcases h : splitSegsCh s.data with ⟨hd, ts⟩
  simp only
  rw [joinSegs_data, map_data_mk]
  have := joinSegsCh_splitSegsCh s.data
  rw [h] at this
  exact this

theorem NestedDict.getitem_split_none {key k1 : String}
    (h : splitKey key = (k1, none)) (d : NestedDict) :
    NestedDict.getitem d key =
      match alGet d k1 with
      | none => .error .keyError
      | some v => .ok v := by
  rw [NestedDict.getitem, splitSegs_of_none h]
  rfl

theorem NestedDict.getitem_split_some {key k1 k2 : String}
    (h : splitKey key = (k1, some k2)) (d : NestedDict) :
    NestedDict.getitem d key =
      match alGet d k1 with
      | none => .error .keyError
      | some (.vdict true sub) => NestedDict.getitem sub k2
      | some (.vdict false sub) =>
          (match alGet sub k2 with
           | some w => .ok w
           | none => .error .keyError)
      | some _ => .error .typeError := by
  rw [NestedDict.getitem, splitSegs_of_some h]
  show NestedDict.getitemGo d k1 ((splitSegs k2).1 :: (splitSegs k2).2) = _
  rw [NestedDict.getitemGo]
  cases halGet : alGet d k1 with
  | none => rfl
  | some v =>
    cases v with
    | vdict b sub => cases b <;> simp [joinSegs_splitSegs, NestedDict.getitem]
    | vnull => rfl
    | vbool x => rfl
    | vint x => rfl
    | vstr x => rfl
    | vlist x => rfl

theorem NestedDict.set_split_none {key k1 : String}
    (h : splitKey key = (k1, none)) (d : NestedDict) (val : Value) :
    NestedDict.set d key val = .ok (alSet d k1 val) := by
  rw [NestedDict.set, splitSegs_of_none h]
  rfl

theorem NestedDict.set_split_some {key k1 k2 : String}
    (h : splitKey key = (k1, some k2)) (d : NestedDict) (val : Value) :
    NestedDict.set d key val =
      match alGet d k1 with
      | none =>
          (match NestedDict.set .nil k2 val with
           | .ok sub => .ok (alSet d k1 (.vdict true sub))
           | .error e => .error e)
      | some (.vdict true sub) =>
          (match NestedDict.set sub k2 val with
           | .ok sub' => .ok (alSet d k1 (.vdict true sub'))
           | .error e => .error e)
      | some (.vdict false sub) =>
          .ok (alSet d k1 (.vdict false (alSet sub k2 val)))
      | some _ => .error .keyError := by
  rw [NestedDict.set, splitSegs_of_some h]
  show NestedDict.setGo d k1 ((splitSegs k2).1 :: (splitSegs k2).2) val = _
  rw [NestedDict.setGo]
  cases halGet : alGet d k1 with
  | none => simp [NestedDict.set]
  | some v =>
    cases v with
    | vdict b sub => cases b <;> simp [joinSegs_splitSegs, NestedDict.set]
    | vnull => rfl
    | vbool x => rfl
    | vint x => rfl
    | vstr x => rfl
    | vlist x => rfl

theorem NestedDict.get_split_none {key k1 : String}
    (h : splitKey key = (k1, none)) (d : NestedDict) (default : Value) :
    NestedDict.get d key default = .ok ((alGet d k1).getD default) := by
  rw [NestedDict.get, splitSegs_of_none h]
  rfl

theorem NestedDict.get_split_some {key k1 k2 : String}
    (h : splitKey key = (k1, some k2)) (d : NestedDict) (default : Value) :
    NestedDict.get d key default =
      match alGet d k1 with
      | none => .ok default
      | some (.vdict true sub) => NestedDict.get sub k2 .vnull
      | some (.vdict false sub) => .ok ((alGet sub k2).getD .vnull)
      | some _ => .error .attributeError := by
  rw [NestedDict.get, splitSegs_of_some h]
  show NestedDict.getGo d k1 ((splitSegs k2).1 :: (splitSegs k2).2) default = _
  rw [NestedDict.getGo]
  cases halGet : alGet d k1 with
  | none => rfl
  | some v =>
    cases v with
    | vdict b sub => cases b <;> simp [joinSegs_splitSegs, NestedDict.get]
    | vnull => rfl
    | vbool x => rfl
    | vint x => rfl
    | vstr x => rfl
    | vlist x => rfl

theorem splitChars_noDot {cs : List Char} (h : noDotChars cs = true) :
    splitChars cs = (cs, none) := by
  induction cs with
  | nil => rfl
  | cons c cs ih =>
    simp only [noDotChars, Bool.and_eq_true, Bool.not_eq_true'] at h
    obtain ⟨h1, h2⟩ := h
    simp only [splitChars]
    rw [if_neg (by simpa using h1), ih h2]

theorem splitKey_noDot {s : String} (h : noDot s = true) :
    splitKey s = (s, none) := by
  unfold splitKey
  rw [splitChars_noDot h]

theorem splitChars_join {a : List Char} (h : noDotChars a = true) (b : List Char) :
    splitChars (a ++ '.' :: b) = (a, some b) := by
  induction a with
  | nil => simp [splitChars]
  | cons c cs ih =>
    simp only [noDotChars, Bool.and_eq_true, Bool.not_eq_true'] at h
    obtain ⟨h1, h2⟩ := h
    simp only [List.cons_append, splitChars]
    rw [if_neg (by simpa using h1),
      show splitChars (cs.append ('.' :: b)) = (cs, some b) from ih h2]

theorem splitKey_join {a : String} (h : noDot a = true) (b : String) :
    splitKey (joinKey a b) = (a, some b) := by
  unfold splitKey
  rw [joinKey_data, splitChars_join h]

/-- Induction over the entry-list spine of a dictionary (the mutual
recursor of the value family is inconvenient for proofs that never enter
the stored values). -/
theorem NestedDict.spineInd {P : NestedDict → Prop} (h0 : P .nil)
    (h1 : ∀ k v rest, P rest → P (.cons k v rest)) : ∀ d, P d
  | .nil => h0
  | .cons k v rest => h1 k v rest (NestedDict.spineInd h0 h1 rest)

theorem alGet_none_of_keyMem {d : NestedDict} {k : String}
    (h : keyMem d k = false) : alGet d k = none := by
  induction d using NestedDict.spineInd with
  | h0 => rfl
  | h1 k' v rest ih =>
    simp only [keyMem, Bool.or_eq_false_iff, decide_eq_false_iff_not] at h
    simp only [alGet, if_neg h.1]
    exact ih h.2

theorem alSet_append {d : NestedDict} {k : String}
    (h : keyMem d k = false) (v : Value) :
    alSet d k v = NestedDict.append d (.cons k v .nil) := by
  induction d using NestedDict.spineInd with
  | h0 => rfl
  | h1 k' v' rest ih =>
    simp only [keyMem, Bool.or_eq_false_iff, decide_eq_false_iff_not] at h
    simp only [alSet, if_neg h.1, NestedDict.append]
    rw [ih h.2]

theorem alGet_alSet_self (d : NestedDict) (k : String) (v : Value) :
    alGet (alSet d k v) k = some v := by
  induction d using NestedDict.spineInd with
  | h0 => simp [alSet, alGet]
  | h1 k' v' rest ih =>
    by_cases hk : k' = k
    · simp [alSet, alGet, hk]
    · simp only [alSet, if_neg hk, alGet, if_neg hk]
      exact ih

theorem alSet_alSet (d : NestedDict) (k : String) (v w : Value) :
    alSet (alSet d k v) k w = alSet d k w := by
  induction d using NestedDict.spineInd with
  | h0 => simp [alSet]
  | h1 k' v' rest ih =>
    by_cases hk : k' = k
    · simp [alSet, hk]
    · simp only [alSet, if_neg hk]
      rw [ih]

theorem alSet_of_alGet {d : NestedDict} {k : String} {v : Value}
    (h : alGet d k = some v) : alSet d k v = d := by
  induction d using NestedDict.spineInd with
  | h0 => simp [alGet] at h
  | h1 k' v' rest ih =>
    by_cases hk : k' = k
    · simp only [alGet, if_pos hk, Option.some.injEq] at h
      simp [alSet, hk, h]
    · simp only [alGet, if_neg hk] at h
      simp only [alSet, if_neg hk]
      rw [ih h]

theorem keyMem_append (a b : NestedDict) (q : String) :
    keyMem (NestedDict.append a b) q = (keyMem a q || keyMem b q) := by
  induction a using NestedDict.spineInd with
  | h0 => simp [NestedDict.append, keyMem]
  | h1 k v rest ih =>
    simp only [NestedDict.append, keyMem, ih, Bool.or_assoc]

theorem append_cons_assoc (D : NestedDict) (k : String) (v : Value)
    (rest : NestedDict) :
    NestedDict.append (NestedDict.append D (.cons k v .nil)) rest =
      NestedDict.append D (.cons k v rest) := by
  induction D using NestedDict.spineInd with
  | h0 => rfl
  | h1 k' v' tl ih => simp only [NestedDict.append, ih]

theorem replay_append (D : NestedDict) (xs ys : List (String × Value)) :
    NestedDict.replay D (xs ++ ys) =
      match NestedDict.replay D xs with
      | .ok D' => NestedDict.replay D' ys
      | .error e => .error e := by
  induction xs generalizing D with
  | nil => rfl
  | cons p ps ih =>
    rcases p with ⟨k, v⟩
    simp only [List.cons_append, NestedDict.replay]
    cases NestedDict.set D k v with
    | ok D' => exact ih D'
    | error e => rfl

theorem set_join_missing {d : NestedDict} {k : String}
    (hk : noDot k = true) (hnone : alGet d k = none) (p : String) (v : Value) :
    NestedDict.set d (joinKey k p) v =
      match NestedDict.set .nil p v with
      | .ok sub => .ok (alSet d k (.vdict true sub))
      | .error e => .error e := by
  rw [NestedDict.set_split_some (splitKey_join hk p), hnone]

theorem set_join_sub {d s : NestedDict} {k : String}
    (hk : noDot k = true) (hsub : alGet d k = some (.vdict true s))
    (p : String) (v : Value) :
    NestedDict.set d (joinKey k p) v =
      match NestedDict.set s p v with
      | .ok sub' => .ok (alSet d k (.vdict true sub'))
      | .error e => .error e := by
  rw [NestedDict.set_split_some (splitKey_join hk p), hsub]

theorem replay_block {k : String} (hk : noDot k = true) :
    ∀ (ps : List (String × Value)) (d s : NestedDict),
      alGet d k = some (.vdict true s) →
      NestedDict.replay d (ps.map (fun p => (joinKey k p.1, p.2))) =
        match NestedDict.replay s ps with
        | .ok s' => .ok (alSet d k (.vdict true s'))
        | .error e => .error e := by
  intro ps
  induction ps with
  | nil =>
    intro d s h
    simp [NestedDict.replay, alSet_of_alGet h]
  | cons p ps ih =>
    intro d s h
    simp only [List.map_cons, NestedDict.replay]
    rw [set_join_sub hk h p.1 p.2]
    cases hset : NestedDict.set s p.1 p.2 with
    | error e => rfl
    | ok s1 =>
      show NestedDict.replay (alSet d k (.vdict true s1))
            (ps.map (fun p => (joinKey k p.1, p.2))) =
          match NestedDict.replay s1 ps with
          | .ok s' => .ok (alSet d k (.vdict true s'))
          | .error e => .error e
      rw [ih (alSet d k (.vdict true s1)) s1 (alGet_alSet_self d k _)]
      cases NestedDict.replay s1 ps with
      | ok s' => simp [alSet_alSet]
      | error e => rfl

theorem replay_block_new {k : String} (hk : noDot k = true)
    (p : String × Value) (ps : List (String × Value)) (d : NestedDict)
    (hnone : alGet d k = none) :
    NestedDict.replay d ((p :: ps).map (fun q => (joinKey k q.1, q.2))) =
      match NestedDict.replay .nil (p :: ps) with
      | .ok s' => .ok (alSet d k (.vdict true s'))
      | .error e => .error e := by
  simp only [List.map_cons, NestedDict.replay]
  rw [set_join_missing hk hnone p.1 p.2]
  cases hset : NestedDict.set .nil p.1 p.2 with
  | error e => rfl
  | ok s1 =>
    show NestedDict.replay (alSet d k (.vdict true s1))
          (ps.map (fun q => (joinKey k q.1, q.2))) =
        match NestedDict.replay s1 ps with
        | .ok s' => .ok (alSet d k (.vdict true s'))
        | .error e => .error e
    rw [replay_block hk ps (alSet d k (.vdict true s1)) s1 (alGet_alSet_self d k _)]
    cases NestedDict.replay s1 ps with
    | ok s' => simp [alSet_alSet]
    | error e => rfl

theorem keysDisjoint_nil (t : NestedDict) : keysDisjoint .nil t = true := by
  induction t using NestedDict.spineInd with
  | h0 => rfl
  | h1 k v rest ih => simpa [keysDisjoint, keyMem] using ih

theorem keysDisjoint_append_one {D rest : NestedDict} {k : String} (v : Value)
    (hd : keysDisjoint D rest = true) (hk : keyMem rest k = false) :
    keysDisjoint (NestedDict.append D (.cons k v .nil)) rest = true := by
  induction rest using NestedDict.spineInd with
  | h0 => rfl
  | h1 k' v' r' ih =>
    simp only [keysDisjoint, Bool.and_eq_true, Bool.not_eq_true'] at hd
    simp only [keyMem, Bool.or_eq_false_iff, decide_eq_false_iff_not] at hk
    simp only [keysDisjoint, Bool.and_eq_true, Bool.not_eq_true']
    refine ⟨?_, ih hd.2 hk.2⟩
    rw [keyMem_append, hd.1]
    simp only [keyMem, Bool.false_or, Bool.or_false]
    simpa using fun h => hk.1 h.symm

theorem iter_flat_nonempty :
    ∀ (n : Nat) (t : NestedDict), ndSize t ≤ n → wfND t = true →
      t ≠ .nil → NestedDict.iter_flat t ≠ [] := by
  intro n
  induction n with
  | zero =>
    intro t hle
    cases t <;> simp [ndSize] at hle
  | succ n ih =>
    intro t hle hwf hne
    match t with
    | .cons k v rest =>
      simp only [wfND, Bool.and_eq_true] at hwf
      obtain ⟨⟨⟨hnd, hmem⟩, hval⟩, hrest⟩ := hwf
      show iterFlatEntry k v ++ NestedDict.iter_flat rest ≠ []
      match v with
      | .vdict true sub =>
        have hsubne : sub ≠ .nil := by
          intro hs
          subst hs
          simp [wfVal] at hval
        have hsize : ndSize sub ≤ n := by
          simp only [ndSize, vSize] at hle
          omega
        have hsubwf : wfND sub = true := by
          cases sub with
          | nil => exact absurd rfl hsubne
          | cons a b c => simpa [wfVal] using hval
        have := ih sub hsize hsubwf hsubne
        simp only [iterFlatEntry]
        intro hcontra
        rcases List.append_eq_nil.mp hcontra with ⟨h1, -⟩
        exact this (List.map_eq_nil_iff.mp h1)
      | .vnull => simp [iterFlatEntry]
      | .vbool b => simp [iterFlatEntry]
      | .vint i => simp [iterFlatEntry]
      | .vstr s => simp [iterFlatEntry]
      | .vlist l => simp [iterFlatEntry]
      | .vdict false sub => simp [iterFlatEntry]

theorem append_nil (D : NestedDict) : NestedDict.append D .nil = D := by
  induction D using NestedDict.spineInd with
  | h0 => rfl
  | h1 k v rest ih => simp only [NestedDict.append, ih]

theorem replay_flat_aux :
    ∀ (n : Nat) (t D : NestedDict), ndSize t ≤ n → wfND t = true →
      keysDisjoint D t = true →
      NestedDict.replay D (NestedDict.iter_flat t) = .ok (NestedDict.append D t) := by
  intro n
  induction n with
  | zero =>
    intro t D hle
    cases t <;> simp [ndSize] at hle
  | succ n ih =>
    intro t D hle hwf hdisj
    match t with
    | .nil =>
      show NestedDict.replay D [] = .ok (NestedDict.append D .nil)
      rw [append_nil]
      rfl
    | .cons k v rest =>
      simp only [wfND, Bool.and_eq_true] at hwf
      obtain ⟨⟨⟨hnd, hmem⟩, hval⟩, hrest⟩ := hwf
      simp only [keysDisjoint, Bool.and_eq_true, Bool.not_eq_true'] at hdisj
      obtain ⟨hDk, hDrest⟩ := hdisj
      have hsizerest : ndSize rest ≤ n := by
        simp only [ndSize] at hle
        have : 1 ≤ vSize v := by cases v <;> simp [vSize]
        omega
      have hstep : ∀ v' : Value,
          NestedDict.replay (NestedDict.append D (.cons k v' .nil))
            (NestedDict.iter_flat rest) =
          .ok (NestedDict.append D (.cons k v' rest)) := by
        intro v'
        rw [ih rest (NestedDict.append D (.cons k v' .nil)) hsizerest hrest
          (keysDisjoint_append_one v' hDrest (by simpa using hmem)),
          append_cons_assoc]
      show NestedDict.replay D (iterFlatEntry k v ++ NestedDict.iter_flat rest) = _
      rw [replay_append]
      match v with
      | .vdict true sub =>
        have hsubne : sub ≠ .nil := by
          intro hs
          subst hs
          simp [wfVal] at hval
        have hsubwf : wfND sub = true := by
          cases sub with
          | nil => exact absurd rfl hsubne
          | cons a b c => simpa [wfVal] using hval
        have hsubsize : ndSize sub ≤ n := by
          simp only [ndSize, vSize] at hle
          omega
        have hflatne := iter_flat_nonempty (ndSize sub) sub le_rfl hsubwf hsubne
        show (match NestedDict.replay D
            ((NestedDict.iter_flat sub).map (fun p => (joinKey k p.1, p.2))) with
          | .ok D' => NestedDict.replay D' (NestedDict.iter_flat rest)
          | .error e => .error e) = _
        rcases hfs : NestedDict.iter_flat sub with _ | ⟨p, ps⟩
        · exact absurd hfs hflatne
        · rw [replay_block_new hnd p ps D (alGet_none_of_keyMem hDk)]
          have hsub : NestedDict.replay .nil (p :: ps) = .ok sub := by
            have h0 := ih sub .nil hsubsize hsubwf (keysDisjoint_nil sub)
            rw [hfs] at h0
            exact h0
          rw [hsub]
          show NestedDict.replay (alSet D k (.vdict true sub))
              (NestedDict.iter_flat rest) = _
          rw [alSet_append hDk, hstep]
      | .vnull =>
        show (match NestedDict.replay D [(k, Value.vnull)] with
          | .ok D' => NestedDict.replay D' (NestedDict.iter_flat rest)
          | .error e => .error e) = _
        show (match (match NestedDict.set D k Value.vnull with
            | .ok d' => NestedDict.replay d' []
            | .error e => .error e) with
          | .ok D' => NestedDict.replay D' (NestedDict.iter_flat rest)
          | .error e => .error e) = _
        rw [NestedDict.set_split_none (splitKey_noDot hnd), alSet_append hDk]
        exact hstep _
      | .vbool b =>
        show (match (match NestedDict.set D k (Value.vbool b) with
            | .ok d' => NestedDict.replay d' []
            | .error e => .error e) with
          | .ok D' => NestedDict.replay D' (NestedDict.iter_flat rest)
          | .error e => .error e) = _
        rw [NestedDict.set_split_none (splitKey_noDot hnd), alSet_append hDk]
        exact hstep _
      | .vint i =>
        show (match (match NestedDict.set D k (Value.vint i) with
            | .ok d' => NestedDict.replay d' []
            | .error e => .error e) with
          | .ok D' => NestedDict.replay D' (NestedDict.iter_flat rest)
          | .error e => .error e) = _
        rw [NestedDict.set_split_none (splitKey_noDot hnd), alSet_append hDk]
        exact hstep _
      | .vstr s =>
        show (match (match NestedDict.set D k (Value.vstr s) with
            | .ok d' => NestedDict.replay d' []
            | .error e => .error e) with
          | .ok D' => NestedDict.replay D' (NestedDict.iter_flat rest)
          | .error e => .error e) = _
        rw [NestedDict.set_split_none (splitKey_noDot hnd), alSet_append hDk]
        exact hstep _
      | .vlist l =>
        show (match (match NestedDict.set D k (Value.vlist l) with
            | .ok d' => NestedDict.replay d' []
            | .error e => .error e) with
          | .ok D' => NestedDict.replay D' (NestedDict.iter_flat rest)
          | .error e => .error e) = _
        rw [NestedDict.set_split_none (splitKey_noDot hnd), alSet_append hDk]
        exact hstep _
      | .vdict false sub =>
        show (match (match NestedDict.set D k (Value.vdict false sub) with
            | .ok d' => NestedDict.replay d' []
            | .error e => .error e) with
          | .ok D' => NestedDict.replay D' (NestedDict.iter_flat rest)
          | .error e => .error e) = _
        rw [NestedDict.set_split_none (splitKey_noDot hnd), alSet_append hDk]
        exact hstep _

/-- The flatten round-trip: replaying every flattened pair of a
well-formed tree into a fresh empty `NestedDict` reproduces the tree
exactly (hence deep-equal). -/
theorem replay_iter_flat {t : NestedDict} (hwf : wfND t = true) :
    NestedDict.replay .nil (NestedDict.iter_flat t) = .ok t :=
  replay_flat_aux (ndSize t) t .nil le_rfl hwf (keysDisjoint_nil t)

theorem collectSettingsSt_eq (fs : List File) (k : String) :
    collectSettingsSt fs k = (collectSettings fs k, fs) := by
  induction fs with
  | nil => rfl
  | cons f fs ih =>
    simp only [collectSettingsSt, File.getitemSt, ih, collectSettings, File.getitem]

theorem filesAllSt_eq (fs : List File) :
    filesAllSt fs = (fs.map File.all, fs) := by
  induction fs with
  | nil => rfl
  | cons f fs ih => simp [filesAllSt, File.allSt, ih, File.all]

theorem filesScanSt_eq (fs : List File) (key : Option String) :
    filesScanSt fs key = (filesScanPure fs key, fs) := by
  cases key with
  | none => simp [filesScanSt, filesAllSt_eq, filesScanPure]
  | some k => simp [filesScanSt, collectSettingsSt_eq, filesScanPure]

theorem scanSt_eq (s : Slot) (key : Option String) (b : Bool) :
    Slot.scanSt s key b =
      ((if b then filesScanPure (Slot.toList s) key else .ok []), s) := by
  cases b with
  | false => rfl
  | true => cases s <;> simp [Slot.scanSt, filesScanSt_eq, Slot.toList]

theorem collectSettings_append (xs ys : List File) (k : String) :
    collectSettings (xs ++ ys) k =
      seqCollect (collectSettings xs k) (collectSettings ys k) := by
  induction xs with
  | nil =>
    simp only [List.nil_append, collectSettings]
    cases collectSettings ys k <;> rfl
  | cons f fs ih =>
    show (match File.getitem f k with
          | .ok v =>
              (match collectSettings (fs ++ ys) k with
               | .ok vs => .ok (v :: vs)
               | .error e => .error e)
          | .error .keyError => collectSettings (fs ++ ys) k
          | .error e => .error e) =
        seqCollect
          (match File.getitem f k with
           | .ok v =>
               (match collectSettings fs k with
                | .ok vs => .ok (v :: vs)
                | .error e => .error e)
           | .error .keyError => collectSettings fs k
           | .error e => .error e)
          (collectSettings ys k)
    rw [ih]
    cases File.getitem f k with
    | ok v =>
      cases collectSettings fs k with
      | ok vs => cases collectSettings ys k <;> rfl
      | error e => rfl
    | error e =>
      cases e with
      | keyError => rfl
      | typeError => rfl
      | attributeError => rfl
      | valueError => rfl

theorem filesScanPure_append (xs ys : List File) (key : Option String) :
    filesScanPure (xs ++ ys) key =
      seqCollect (filesScanPure xs key) (filesScanPure ys key) := by
  cases key with
  | none => simp [filesScanPure, seqCollect]
  | some k => simpa [filesScanPure] using collectSettings_append xs ys k

theorem filesScanPure_nil (key : Option String) :
    filesScanPure [] key = .ok [] := by
  cases key <;> rfl

theorem filesScanPure_if (b : Bool) (fs : List File) (key : Option String) :
    filesScanPure (if b then fs else []) key =
      if b then filesScanPure fs key else .ok [] := by
  cases b with
  | false => simp [filesScanPure_nil]
  | true => simp

theorem seqCollect_if (b : Bool) (x : Except Err (List Value))
    (y : Except Err (List Value)) :
    seqCollect (if b then x else .ok []) y =
      (match (if b then x else .ok []), y with
       | .ok a, .ok c => .ok (a ++ c)
       | .error e, _ => .error e
       | .ok _, .error e => .error e) := by
  cases b <;> rfl

theorem getexBodySt_eq (m : Manager) (key : Option String) (gk : Option String) :
    Manager.getexBodySt m key gk =
      (Manager.getexFiles m key (Manager.iter_files m gk false), m) := by
  have hif : Manager.iter_files m gk false =
      (if includeGroup gk "default" then Slot.toList m.gdefault else []) ++
      ((if includeGroup gk "plugin" then Slot.toList m.gplugin else []) ++
       ((if includeGroup gk "user" then Slot.toList m.guser else []) ++
        (if includeGroup gk "runtime" then Slot.toList m.gruntime else []))) := by
    simp [Manager.iter_files, Manager.slotList]
  have hm : ({ m with
      gdefault := m.gdefault, gplugin := m.gplugin,
      guser := m.guser, gruntime := m.gruntime } : Manager) = m := rfl
  rw [Manager.getexBodySt, scanSt_eq, scanSt_eq, scanSt_eq, scanSt_eq]
  show (_, ({ m with
      gdefault := m.gdefault, gplugin := m.gplugin,
      guser := m.guser, gruntime := m.gruntime } : Manager)) = _
  rw [hm]
  have hscan : filesScanPure (Manager.iter_files m gk false) key =
      seqCollect (if includeGroup gk "default"
                  then filesScanPure (Slot.toList m.gdefault) key else .ok [])
        (seqCollect (if includeGroup gk "plugin"
                     then filesScanPure (Slot.toList m.gplugin) key else .ok [])
          (seqCollect (if includeGroup gk "user"
                       then filesScanPure (Slot.toList m.guser) key else .ok [])
            (if includeGroup gk "runtime"
             then filesScanPure (Slot.toList m.gruntime) key else .ok []))) := by
    rw [hif, filesScanPure_append, filesScanPure_append, filesScanPure_append,
      filesScanPure_if, filesScanPure_if, filesScanPure_if, filesScanPure_if]
  show ((match seqCollect
            (if includeGroup gk "default"
             then filesScanPure (Slot.toList m.gdefault) key else .ok [])
            (seqCollect
              (if includeGroup gk "plugin"
               then filesScanPure (Slot.toList m.gplugin) key else .ok [])
              (seqCollect
                (if includeGroup gk "user"
                 then filesScanPure (Slot.toList m.guser) key else .ok [])
                (if includeGroup gk "runtime"
                 then filesScanPure (Slot.toList m.gruntime) key else .ok []))) with
         | Except.error e => Except.error e
         | Except.ok [] => Except.error Err.keyError
         | Except.ok (a :: rest) => combineSettings m key a rest), m) = _
  rw [← hscan]
  rfl

theorem getexSt_eq (m : Manager) (key : Option String) (groupkey : Option String) :
    Manager.getexSt m key groupkey = (Manager.getex m key groupkey, m) := by
  cases groupkey with
  | none =>
    rw [Manager.getexSt, getexBodySt_eq]
    rfl
  | some g =>
    rw [Manager.getexSt]
    by_cases hg : g = "default" ∨ g = "plugin" ∨ g = "user" ∨ g = "runtime"
    · rw [if_pos hg, getexBodySt_eq, Manager.getex, if_pos hg]
    · rw [if_neg hg, Manager.getex, if_neg hg]

/-- Claim C1, counterexample.  The claim states that `Manager.reload`
leaves the runtime Source as-is, so a key written with `Manager.set`
would still be held afterwards.  On the code, `reload` iterates
`iter_files()`, which yields the runtime `File` too; `File.reload` clears
its settings and re-reads its `None` path, restoring nothing.  Concretely:
after `set('r', 1)` and `reload()` on an empty disk the runtime source no
longer holds `r` (the claim asserts it still maps to 1). -/
theorem claim_C1_counterexample :
    (match Manager.set Manager.init "r" (.vint 1) with
     | .ok m1 => Manager.reload m1 []
     | .error e => .error e) = .ok c1M2 ∧
    (match c1M2.gruntime with
     | .file f => alGet f.settings "r"
     | .files _ => none) = none ∧
    (match c1M2.gruntime with
     | .file f => alGet f.settings "r"
     | .files _ => none) ≠ some (.vint 1) ∧
    Manager.get c1M2 (some "r") (.vint 0) none = .ok (.vint 0) :=
  ⟨rfl, rfl, fun h => Option.noConfusion h, rfl⟩

/-- Claim C1 as amended: `Manager.reload` reloads every Source yielded by
`iter_files()`, the runtime Source included; since the runtime Source has
no backing path, its settings are cleared rather than left as-is, so every
previously `set` runtime key is lost.  Formally: whenever the runtime
entry is a `File` with no path (the only reachable shape) and the reload
succeeds, the resulting runtime entry is an empty, pathless `File`. -/
theorem claim_C1 (m : Manager) (disk : Disk) (f : File) (m' : Manager)
    (hr : m.gruntime = .file f) (hp : f.path = none)
    (hok : Manager.reload m disk = .ok m') :
    m'.gruntime = .file { path := none, settings := .nil } := by
  unfold Manager.reload at hok
  cases hd : Slot.reload disk m.gdefault with
  | error e => rw [hd] at hok; exact absurd hok (by simp)
  | ok d' =>
    rw [hd] at hok
    cases hpl : Slot.reload disk m.gplugin with
    | error e => rw [hpl] at hok; exact absurd hok (by simp)
    | ok p' =>
      rw [hpl] at hok
      cases hu : Slot.reload disk m.guser with
      | error e => rw [hu] at hok; exact absurd hok (by simp)
      | ok u' =>
        rw [hu] at hok
        have hrt : Slot.reload disk m.gruntime =
            .ok (.file { path := none, settings := .nil }) := by
          rw [hr]
          show (match File.reload disk f with
                | Except.ok f' => Except.ok (Slot.file f')
                | Except.error e => Except.error e) = _
          have : File.reload disk f = .ok { path := none, settings := .nil } := by
            unfold File.reload File.read
            rw [hp]
          rw [this]
        rw [hrt] at hok
        simp only [Except.ok.injEq] at hok
        rw [← hok]

/-- Witness for claim C1: the amended theorem applied to the concrete
manager holding the runtime pair `r = 1`, reloaded against an empty
disk. -/
theorem claim_C1_witness :
    c1M1.gruntime = .file { path := none, settings := .cons "r" (.vint 1) .nil } ∧
    Manager.reload c1M1 [] = .ok c1M2 ∧
    c1M2.gruntime = .file { path := none, settings := .nil } :=
  ⟨rfl, rfl, claim_C1 c1M1 [] _ c1M2 rfl rfl rfl⟩

/-- Claim C2, counterexample.  The claim asserts that for a `NestedDict`
holding b at 1 under a, `update` with the Python literal mapping of c to 2
under a preserves the sibling leaf.  A dict literal (like parsed JSON) is
a plain `dict`, and `iter_flat` recurses only into `NestedDict`
instances, so the incoming nested plain dict is one opaque leaf: the
update sets the top-level key `a` wholesale, losing `b`.  The result is
not deep-equal to the claimed merge. -/
theorem claim_C2_counterexample :
    NestedDict.update (.cons "a" (.vdict true (.cons "b" (.vint 1) .nil)) .nil)
      (.cons "a" (.vdict false (.cons "c" (.vint 2) .nil)) .nil) =
      .ok (.cons "a" (.vdict false (.cons "c" (.vint 2) .nil)) .nil) ∧
    valueEqB
      (.vdict true (.cons "a" (.vdict false (.cons "c" (.vint 2) .nil)) .nil))
      (.vdict true (.cons "a"
        (.vdict true (.cons "b" (.vint 1) (.cons "c" (.vint 2) .nil))) .nil)) = false :=
  ⟨rfl, rfl⟩

/-- Claim C2 as amended: `NestedDict.update` is a deep merge exactly when
the nesting of the incoming mapping is `NestedDict`-typed (then
`iter_flat` descends and every flattened pair is set individually, so
updating b-at-1-under-a with a `NestedDict`-nested c-at-2-under-a yields
both leaves under a); with a plain-dict argument the nested value is an
opaque leaf and the top-level key is replaced wholesale. -/
theorem claim_C2 :
    NestedDict.update (.cons "a" (.vdict true (.cons "b" (.vint 1) .nil)) .nil)
      (.cons "a" (.vdict true (.cons "c" (.vint 2) .nil)) .nil) =
      .ok (.cons "a"
        (.vdict true (.cons "b" (.vint 1) (.cons "c" (.vint 2) .nil))) .nil) ∧
    valueEqB
      (.vdict true (.cons "a"
        (.vdict true (.cons "b" (.vint 1) (.cons "c" (.vint 2) .nil))) .nil))
      (.vdict false (.cons "a"
        (.vdict false (.cons "b" (.vint 1) (.cons "c" (.vint 2) .nil))) .nil)) = true :=
  ⟨rfl, rfl⟩

/-- Claim C3, evaluation at the failing input.  After `Manager.reset()`
every `_file_groups` entry — the runtime one included — is the empty
*list* `[]`, not a recreated `File`.  So `get` on a previously set
runtime key does return the default (first conjunct of the claim holds),
but a subsequent `Manager.set` calls `.set(...)` on a list and raises
`AttributeError` instead of succeeding: the claim's second half is
contradicted by the code. -/
theorem claim_C3 :
    (match Manager.set Manager.init "r" (.vint 1) with
     | .ok m1 => Manager.set (Manager.reset m1) "r" (.vint 2)
     | .error e => .error e) = .error .attributeError ∧
    (match Manager.set Manager.init "r" (.vint 1) with
     | .ok m1 => Manager.get (Manager.reset m1) (some "r") (.vint 99) none
     | .error e => .error e) = .ok (.vint 99) ∧
    (Manager.reset c1M1).gruntime = .files [] :=
  ⟨rfl, rfl, rfl⟩

/-- Claim C4, counterexample.  The claim asserts that when a source maps
the segment `x` to a scalar, `Source.get('x.y', default)` and
`Manager.get('x.y', default)` return the default.  On the code the
subscription `5['y']` raises `TypeError`, and both `File.get` and
`Manager.get` catch only `KeyError`, so the `TypeError` propagates
instead of the default `7` being returned. -/
theorem claim_C4_counterexample :
    File.get c4File "x.y" (.vint 7) = .error .typeError ∧
    File.get c4File "x.y" (.vint 7) ≠ .ok (.vint 7) ∧
    Manager.get c4Manager (some "x.y") (.vint 7) none = .error .typeError :=
  ⟨rfl, fun h => Except.noConfusion h, rfl⟩

/-- Claim C4 as amended: the default substitutes only for `KeyError`
(head segment absent, or remainder absent in a dict container); when an
intermediate segment resolves to a scalar or a list, the string
subscription raises `TypeError`, which propagates out of `File.get` and
likewise out of `Manager.get`. -/
theorem claim_C4 :
    (∀ (f : File) (key k1 k2 : String) (d v : Value),
        splitKey key = (k1, some k2) →
        alGet f.settings k1 = some v →
        nonSubscriptable v = true →
        File.get f key d = .error .typeError) ∧
    (∀ (d : Value), Manager.get c4Manager (some "x.y") d none = .error .typeError) := by
  constructor
  · intro f key k1 k2 d v hsplit halGet hscalar
    unfold File.get File.getitem
    rw [NestedDict.getitem_split_some hsplit, halGet]
    cases v with
    | vdict b sub => simp [nonSubscriptable] at hscalar
    | vnull => rfl
    | vbool x => rfl
    | vint x => rfl
    | vstr x => rfl
    | vlist x => rfl
  · intro d
    rfl

/-- Witness for claim C4: the amended theorem applied to the source with
the scalar `5` at `x`, read at `x.y` with default `7`. -/
theorem claim_C4_witness :
    splitKey "x.y" = ("x", some "y") ∧
    alGet c4File.settings "x" = some (.vint 5) ∧
    nonSubscriptable (.vint 5) = true ∧
    File.get c4File "x.y" (.vint 7) = .error .typeError :=
  ⟨rfl, rfl, rfl, claim_C4.1 c4File "x.y" "x" "y" (.vint 7) (.vint 5) rfl rfl rfl⟩

/-- Claim C5, evaluation at the failing input.  `NestedDict.get` forwards
only `**kwargs` to the recursive call, not the positional `default`, so
when the first segment exists as a container and the remainder is absent
the nested call runs with default `None`: `t.get('a.b', 42)` on the tree
holding an empty `NestedDict` at `a` returns `None`, not `42` as the
claim (and the spec contract) requires. -/
theorem claim_C5 :
    NestedDict.get (.cons "a" (.vdict true .nil) .nil) "a.b" (.vint 42) = .ok .vnull ∧
    NestedDict.get (.cons "a" (.vdict true .nil) .nil) "a.b" (.vint 42) ≠
      .ok (.vint 42) :=
  ⟨rfl, fun h => Value.noConfusion (Except.ok.inj h)⟩

/-- Claim C6: `add_source` with a groupkey lowering to `runtime` is
silently ignored (no Source returned, no error, manager unchanged); with
a nonexistent path, or a tier that is none of the four group names, it
raises the invalid-source `ValueError`; on success it constructs the
`File`, appends it to the named tier's list and returns it. -/
theorem claim_C6 :
    (∀ (m : Manager) (disk : Disk) (fpath gk : String) (top : Option String),
        strLower gk = "runtime" →
        Manager.add_source m disk fpath gk top = .ok (none, m)) ∧
    (∀ (m : Manager) (disk : Disk) (fpath gk : String) (top : Option String),
        strLower gk ≠ "runtime" →
        (diskGet disk fpath = none ∨
         (strLower gk ≠ "default" ∧ strLower gk ≠ "plugin" ∧
          strLower gk ≠ "user")) →
        Manager.add_source m disk fpath gk top = .error .valueError) ∧
    (∀ (m : Manager) (disk : Disk) (fpath gk : String) (l : List File) (f : File),
        (strLower gk = "default" ∨ strLower gk = "plugin" ∨
         strLower gk = "user") →
        Manager.slotOf m (strLower gk) = some (.files l) →
        (diskGet disk fpath).isSome →
        File.init disk (some fpath) m.autoload = .ok f →
        Manager.add_source m disk fpath gk none =
          .ok (some f, Manager.withSlot m (strLower gk) (.files (l ++ [f])))) := by
  refine ⟨?_, ?_, ?_⟩
  · intro m disk fpath gk top h
    simp only [Manager.add_source, h]
    rfl
  · intro m disk fpath gk top hne hbad
    simp only [Manager.add_source]
    rw [if_neg hne, if_neg]
    rintro ⟨hsome, hnames⟩
    rcases hbad with h0 | ⟨ha, hb, hc⟩
    · rw [h0] at hsome
      simp at hsome
    · rcases hnames with h | h | h | h
      · exact ha h
      · exact hb h
      · exact hc h
      · exact hne h
  · intro m disk fpath gk l f hnames hslot hsome hinit
    have hne : strLower gk ≠ "runtime" := by
      rcases hnames with h | h | h <;> rw [h] <;> decide
    simp only [Manager.add_source]
    rw [if_neg hne, if_pos ⟨hsome, by
      rcases hnames with h | h | h
      · exact Or.inl h
      · exact Or.inr (Or.inl h)
      · exact Or.inr (Or.inr (Or.inl h))⟩]
    rw [hinit, hslot]
    rfl

/-- Witness for claim C6: each branch of the theorem applied to a
concrete fresh manager and one-file disk. -/
theorem claim_C6_witness :
    strLower "runtime" = "runtime" ∧
    Manager.add_source Manager.init [("a.json", .nil)] "a.json" "runtime" none =
      .ok (none, Manager.init) ∧
    Manager.add_source Manager.init [("a.json", .nil)] "missing.json" "user" none =
      .error .valueError ∧
    Manager.add_source Manager.init [("a.json", .nil)] "a.json" "user" none =
      .ok (some { path := some "a.json", settings := .nil },
           Manager.withSlot Manager.init "user"
             (.files [{ path := some "a.json", settings := .nil }])) :=
  ⟨rfl,
   claim_C6.1 Manager.init [("a.json", .nil)] "a.json" "runtime" none rfl,
   claim_C6.2.1 Manager.init [("a.json", .nil)] "missing.json" "user" none
     (by decide) (Or.inl rfl),
   claim_C6.2.2 Manager.init [("a.json", .nil)] "a.json" "user" []
     { path := some "a.json", settings := .nil }
     (Or.inr (Or.inr rfl)) rfl rfl rfl⟩

/-- Claim C7: with a default source holding the parsed JSON a-at-1 under
m and a user source holding b-at-2 under m, both collected values are
dict-valued, the effective mode is the dict default `MERGE`, and the
merge folds them in ascending priority order into one fresh accumulator:
the manager returns the `NestedDict` holding a at 1 and b at 2, which is
deep-equal (Python `==`) to the plain mapping of the claim. -/
theorem claim_C7 :
    (match c7ManagerE with
     | .ok m => Manager.get m (some "m") .vnull none
     | .error e => .error e) =
      .ok (.vdict true (.cons "a" (.vint 1) (.cons "b" (.vint 2) .nil))) ∧
    valueEqB (.vdict true (.cons "a" (.vint 1) (.cons "b" (.vint 2) .nil)))
      (.vdict false (.cons "a" (.vint 1) (.cons "b" (.vint 2) .nil))) = true :=
  ⟨rfl, rfl⟩

/-- Claim C8: the chart scenario.  With the default and user documents of
the claim loaded, `get('dpi')` is 300 (user overrides), `get(
'dimensions.width')` is 1920, `get('colors')` is the user list, and
`get('dpi', group='default')` is 150 — the group filter considers only
the default tier although the user tier defines `dpi` too. -/
theorem claim_C8 :
    (match chartManagerE with
     | .ok m => Manager.get m (some "dpi") .vnull none
     | .error e => .error e) = .ok (.vint 300) ∧
    (match chartManagerE with
     | .ok m => Manager.get m (some "dimensions.width") .vnull none
     | .error e => .error e) = .ok (.vint 1920) ∧
    (match chartManagerE with
     | .ok m => Manager.get m (some "colors") .vnull none
     | .error e => .error e) =
      .ok (.vlist (.lcons (.vstr "red") (.lcons (.vstr "green")
        (.lcons (.vstr "blue") .lnil)))) ∧
    (match chartManagerE with
     | .ok m => Manager.get m (some "dpi") .vnull (some "default")
     | .error e => .error e) = .ok (.vint 150) :=
  ⟨rfl, rfl, rfl, rfl⟩

/-- Claim C9, counterexample.  The claim quantifies over every
`NestedDict`; for the tree holding an *empty* `NestedDict` under `a`
(reachable, for example, by setting `a.b` and popping it), `iter_flat`
yields no pairs at all, so the replay produces the empty tree, which is
not deep-equal to the original. -/
theorem claim_C9_counterexample :
    NestedDict.iter_flat (.cons "a" (.vdict true .nil) .nil) = [] ∧
    NestedDict.replay .nil
      (NestedDict.iter_flat (.cons "a" (.vdict true .nil) .nil)) = .ok .nil ∧
    valueEqB (.vdict true .nil)
      (.vdict true (.cons "a" (.vdict true .nil) .nil)) = false :=
  ⟨rfl, rfl, rfl⟩

/-- Claim C9 as amended: the flatten round-trip holds for every
well-formed tree — keys unique per level and separator-free, and every
`NestedDict`-typed subtree non-empty (exactly the conditions the
counterexample violates): replaying the flattened pairs into a fresh
empty `NestedDict` reproduces the tree exactly, hence deep-equal. -/
theorem claim_C9 (t : NestedDict) (hwf : wfND t = true) :
    NestedDict.replay .nil (NestedDict.iter_flat t) = .ok t :=
  replay_iter_flat hwf

/-- Witness for claim C9: the amended round-trip applied to a concrete
two-entry tree with one nested level. -/
theorem claim_C9_witness :
    wfND (.cons "a" (.vdict true (.cons "b" (.vint 1) .nil))
      (.cons "c" (.vint 2) .nil)) = true ∧
    NestedDict.replay .nil
      (NestedDict.iter_flat (.cons "a" (.vdict true (.cons "b" (.vint 1) .nil))
        (.cons "c" (.vint 2) .nil))) =
      .ok (.cons "a" (.vdict true (.cons "b" (.vint 1) .nil))
        (.cons "c" (.vint 2) .nil)) :=
  ⟨rfl, claim_C9 (.cons "a" (.vdict true (.cons "b" (.vint 1) .nil))
      (.cons "c" (.vint 2) .nil)) rfl⟩

/-- Claim C10: lookups never mutate state.  The state-passing translation
of `Manager.get` / `_getex` — in which every file access hands the file
object back and the manager is rebuilt from the returned group entries —
returns exactly the value of the pure lookup together with the manager it
started from, for every manager state, every key (including `None`), and
every group filter; in particular the mode table, the group lists and
every Source tree are unchanged, and the `MERGE` branches build their
result in a fresh accumulator. -/
theorem claim_C10 (m : Manager) (key : Option String) (default : Value)
    (groupkey : Option String) :
    Manager.getSt m key default groupkey = (Manager.get m key default groupkey, m) ∧
    Manager.getexSt m key groupkey = (Manager.getex m key groupkey, m) := by
  refine ⟨?_, getexSt_eq m key groupkey⟩
  rw [Manager.getSt, getexSt_eq]
  unfold Manager.get
  cases Manager.getex m key groupkey with
  | ok v => rfl
  | error e => cases e <;> rfl
